import Mathlib

/-!
Verification of the Kiri document-to-artifact generation pipeline
(`src/Kiri.py`) against its natural-language specification.

Python strings are modelled as `List Char` (named `Str` below); every
definition is translated directly from the source:

* `SummarizationWorker.__init__` / `process_full_text` / `process_chunks`
  (prompt table, prompt building, temperature selection) — `promptsLookup`,
  `buildPrompt`, `temperature`;
* `PDFManagerApp.split_text_into_chunks` — `split_text_into_chunks` and its
  helpers (`splitDotSpace`, `splitSpace`, `strip`, `wordLoop`, `sentLoop`);
* `SummarizationWorker.process_chunks` concurrency structure
  (`asyncio.Semaphore(2)`, one task per chunk, shared `summaries` list,
  progress signal) — a small-step transition system `DStep` over
  `DispatchState`, with reachability `DReach`.
-/

namespace Kiri

/-- Python `str` modelled as a list of characters. -/
abbrev Str := List Char

/-- Embed a Lean string literal as a `Str`. -/
def str (s : String) : Str := s.data

/-- Python whitespace characters (`str.strip` strips these; the source text
has already had `\n` and `\r` replaced by spaces before any stripping). -/
def isWs (c : Char) : Bool :=
  c = ' ' || c = '\t' || c = '\n' || c = '\r' || c = '\x0b' || c = '\x0c'

/-- Python `s.lstrip()`: drop leading whitespace. -/
def lstrip (s : Str) : Str := s.dropWhile isWs

/-- Python `s.rstrip()`: drop trailing whitespace. -/
def rstrip : Str → Str
  | [] => []
  | c :: rest =>
    let r := rstrip rest
    if r = [] ∧ isWs c then [] else c :: r

/-- Python `s.strip()`: drop whitespace at both ends. -/
def strip (s : Str) : Str := lstrip (rstrip s)

/-! ## Prompt Builder (`SummarizationWorker.__init__`, lines 39–68,
and the prompt selection in `process_full_text` / `process_chunks`) -/

/-- The `"summary"` entry of `self.prompts`. -/
def summaryPrompt : Str := str
  ("You are an expert note-taking assistant specializing in creating structured, " ++
   "detailed summaries. Create a comprehensive summary of the provided text. " ++
   "Focus on key facts, important concepts, and critical takeaways. " ++
   "Organize information logically with clear sections and paragraphs. " ++
   "Do not use markdown or special formatting in your response.")

/-- The `"brief"` entry of `self.prompts`. -/
def briefPrompt : Str := str
  ("Create a concise brief overview of the following text. " ++
   "Focus on the most important concepts and key takeaways. " ++
   "Use a clear paragraph structure.")

/-- The `"qna"` entry of `self.prompts`. -/
def qnaPrompt : Str := str
  ("Generate 5 important questions and detailed answers based on the following text. " ++
   "Format each pair clearly as:\nQ: [Question]\nA: [Detailed answer]\n" ++
   "Separate each pair with a blank line.")

/-- The `"questions"` entry of `self.prompts`. -/
def questionsPrompt : Str := str
  ("Create 10 practice questions based on the following text. " ++
   "Include a mix of multiple choice, short answer, and discussion questions. " ++
   "Number each question clearly.")

/-- The default `"professor"` entry of `self.prompts` (used when
`custom_prompt` is empty). -/
def professorDefault : Str := str
  ("You are a helpful professor assistant. Answer questions about the provided text " ++
   "in a clear, educational manner. Provide detailed explanations and examples where appropriate.")

/-- The lookup `self.prompts.get(self.prompt_type, self.prompts["summary"])`: the dict is
built in `__init__` with the `"professor"` entry equal to
`self.custom_prompt if self.custom_prompt else <default>`; `.get` falls back
to the `"summary"` entry for unknown keys. -/
def promptsLookup (promptType customPrompt : Str) : Str :=
  if promptType = str "summary" then summaryPrompt
  else if promptType = str "brief" then briefPrompt
  else if promptType = str "qna" then qnaPrompt
  else if promptType = str "questions" then questionsPrompt
  else if promptType = str "professor" then
    (if customPrompt ≠ [] then customPrompt else professorDefault)
  else summaryPrompt

/-- The prompt actually sent as the system message (lines 74–81 and 112–118):
`base_prompt` from the table, with `"Answer length: {answer_length}. "`
prepended when `answer_length` is non-empty and `prompt_type == "professor"`. -/
def buildPrompt (promptType customPrompt answerLength : Str) : Str :=
  let base := promptsLookup promptType customPrompt
  if answerLength ≠ [] ∧ promptType = str "professor" then
    str "Answer length: " ++ answerLength ++ str ". " ++ base
  else base

/-- The temperature option of every `client.chat` call (lines 90 and 127):
`0.4 if self.prompt_type in ["summary", "brief"] else 0.7`. -/
def temperature (promptType : Str) : ℚ :=
  if promptType ∈ [str "summary", str "brief"] then 0.4 else 0.7

/-! ## Segmenter (`PDFManagerApp.split_text_into_chunks`, lines 792–830) -/

/-- Python `text.replace(c, d)` for single characters. -/
def replaceChar (c d : Char) (s : Str) : Str :=
  s.map (fun x => if x = c then d else x)

/-- Python `text.split('. ')`: split on the two-character delimiter,
scanning left to right, non-overlapping, keeping empty pieces. -/
def splitDotSpace : Str → List Str
  | [] => [[]]
  | '.' :: ' ' :: rest => [] :: splitDotSpace rest
  | c :: rest =>
    match splitDotSpace rest with
    | [] => [[c]]
    | h :: t => (c :: h) :: t

/-- Python `s.split(' ')`: split on every single space, keeping empty pieces. -/
def splitSpace : Str → List Str
  | [] => [[]]
  | c :: rest =>
    if c = ' ' then [] :: splitSpace rest
    else
      match splitSpace rest with
      | [] => [[c]]
      | h :: t => (c :: h) :: t

/-- The sentence list `[s.strip() for s in text.split('. ') if s.strip()]`,
computed on the line-break-normalized text (line 795). -/
def sentencesOf (text : Str) : List Str :=
  ((splitDotSpace (replaceChar '\r' ' ' (replaceChar '\n' ' ' text))).map strip).filter (· ≠ [])

/-- The flush step `if current_chunk.strip(): chunks.append(current_chunk.strip())`,
as the (possibly empty) list of appended chunks. -/
def optStrip (cc : Str) : List Str :=
  if strip cc = [] then [] else [strip cc]

/-- The inner `for word in words` loop (lines 816–822) that force-splits an
over-long sentence: threads the accumulated `chunks` list and the running
`current_chunk` buffer. -/
def wordLoop (m : Nat) : List Str → List Str → Str → List Str × Str
  | [], chunks, cc => (chunks, cc)
  | w :: ws, chunks, cc =>
    if cc.length + w.length + 1 ≤ m then
      wordLoop m ws chunks (cc ++ w ++ [' '])
    else
      wordLoop m ws (chunks ++ optStrip cc) (w ++ [' '])

/-- The outer `for sentence in sentences` loop (lines 798–826). -/
def sentLoop (m : Nat) : List Str → List Str → Str → List Str × Str
  | [], chunks, cc => (chunks, cc)
  | s :: ss, chunks, cc =>
    let swp := s ++ ['.', ' ']
    if (cc ++ swp).length ≤ m then
      sentLoop m ss chunks (cc ++ swp)
    else
      let chunks1 := chunks ++ optStrip cc
      if swp.length ≤ m then
        sentLoop m ss chunks1 swp
      else
        let p := wordLoop m (splitSpace swp) chunks1 []
        sentLoop m ss (p.1 ++ optStrip p.2) []

/-- The segmenter `PDFManagerApp.split_text_into_chunks(text, max_chunk_size)`
(lines 792–830), translated whole: normalize line breaks to spaces, split
into sentences on `". "`, greedily pack them, force-splitting over-long
sentences on single spaces, and flush the final buffer. -/
def split_text_into_chunks (text : Str) (m : Nat) : List Str :=
  let p := sentLoop m (sentencesOf text) [] []
  p.1 ++ optStrip p.2

/-! ## Whitespace normalization (used to state the round-trip claims) -/

/-- Split on every whitespace character, keeping empty pieces. -/
def splitWs : Str → List Str
  | [] => [[]]
  | c :: rest =>
    if isWs c then [] :: splitWs rest
    else
      match splitWs rest with
      | [] => [[c]]
      | h :: t => (c :: h) :: t

/-- The whitespace-separated words of a string (Python `s.split()`). -/
def wsTokens (s : Str) : List Str := (splitWs s).filter (· ≠ [])

/-- Join a list of strings with single spaces (Python `" ".join`). -/
def joinSpace : List Str → Str
  | [] => []
  | [x] => x
  | x :: y :: t => x ++ ' ' :: joinSpace (y :: t)

/-- Whitespace normalization: collapse every whitespace run to a single
space and trim both ends. -/
def normalizeWs (s : Str) : Str := joinSpace (wsTokens s)

/-- The running buffer `current_chunk` is empty or ends with a space —
true throughout both loops, since every assignment appends `" "`. -/
def WsTerm (cc : Str) : Prop := cc = [] ∨ ∃ d : Str, cc = d ++ [' ']

/-- The whitespace-separated words of a list of chunks, in order. -/
def tokChunks (l : List Str) : List Str := (l.map wsTokens).flatten

/-! ## Dispatcher and Aggregator (`SummarizationWorker.process_chunks`,
lines 102–148)

`process_chunks` creates one `process_chunk(chunk, i)` coroutine per chunk,
runs them under `asyncio.Semaphore(2)`, and `await asyncio.gather(*tasks)`.
Each coroutine, inside the semaphore, awaits `client.chat` (the only
suspension point), then — atomically, since no `await` separates these —
appends either the response text or the `[ERROR] ...` string to the shared
`summaries` list, emits progress on success, and releases the semaphore.

This is modelled as a small-step transition system: a `start` step acquires
a semaphore slot (possible only while fewer than 2 calls are in flight) and
issues the chat call; a `finish` step ends an in-flight call, appends its
result to `summaries`, emits its progress value, and releases the slot.
The model lets calls start in any order (asyncio starts them in index
order), a superset of the real schedules; every concrete schedule used
below starts calls in index order. -/

/-- Decimal rendering of a `Nat`, for the f-string `{index+1}`. -/
def natStr (n : Nat) : Str := (toString n).data

/-- A dispatch scenario: the number of chunks and, for each index, the
outcome of its `client.chat` call — `.ok text` if the call returns `text`,
`.error msg` if it raises an exception rendering as `msg`. -/
structure DispatchCfg where
  n : Nat
  outcome : Nat → Except Str Str

/-- The entry `process_chunk(chunk, index)` appends to `summaries`:
the response content on success, or
`f"[ERROR] Processing chunk {index+1}: {str(e)}"` on failure (line 135). -/
def resultText (cfg : DispatchCfg) (i : Nat) : Str :=
  match cfg.outcome i with
  | .ok s => s
  | .error e => str "[ERROR] Processing chunk " ++ natStr (i + 1) ++ str ": " ++ e

/-- Progress values emitted when chunk `i` completes:
`self.progress.emit(int((index + 1) / len(chunks) * 100))` on success
(line 133), nothing on the exception path. -/
def progressEmit (cfg : DispatchCfg) (i : Nat) : List Nat :=
  match cfg.outcome i with
  | .ok _ => [(i + 1) * 100 / cfg.n]
  | .error _ => []

/-- The mutable state of one `process_chunks` run: indices whose chat call
is in flight (semaphore held), indices completed in completion order, the
shared `summaries` list, and the progress values emitted so far. -/
structure DispatchState where
  running : List Nat
  done : List Nat
  summaries : List Str
  progressLog : List Nat
  deriving DecidableEq

/-- The state when `process_chunks` begins. -/
def dInit : DispatchState := ⟨[], [], [], []⟩

/-- One scheduler step of `process_chunks`:
`start i` acquires a semaphore slot (`asyncio.Semaphore(2)`, line 105) for a
not-yet-started chunk and issues its chat call; `finish i` completes an
in-flight call, appends its result to `summaries`, emits its progress, and
releases the slot (`async with semaphore`, success or failure alike). -/
inductive DStep (cfg : DispatchCfg) : DispatchState → DispatchState → Prop
  | start (i : Nat) (s : DispatchState) :
      i < cfg.n → i ∉ s.running → i ∉ s.done → s.running.length < 2 →
      DStep cfg s ⟨s.running ++ [i], s.done, s.summaries, s.progressLog⟩
  | finish (i : Nat) (s : DispatchState) :
      i ∈ s.running →
      DStep cfg s ⟨s.running.erase i, s.done ++ [i],
                   s.summaries ++ [resultText cfg i],
                   s.progressLog ++ progressEmit cfg i⟩

/-- Reachability of a dispatch state from another by scheduler steps. -/
def DReach (cfg : DispatchCfg) : DispatchState → DispatchState → Prop :=
  Relation.ReflTransGen (DStep cfg)

/-- The run is complete (`await asyncio.gather(*tasks)` has returned): no
call is in flight and every chunk has completed. -/
def DComplete (cfg : DispatchCfg) (s : DispatchState) : Prop :=
  s.running = [] ∧ s.done.length = cfg.n

/-- Python `sep.join(parts)`. -/
def joinSep (sep : Str) : List Str → Str
  | [] => []
  | [x] => x
  | x :: y :: t => x ++ sep ++ joinSep sep (y :: t)

/-- The combination step after `gather` (lines 143–148): section-break join
for `"summary"`, plain blank-line join otherwise. -/
def finalResult (promptType : Str) (summaries : List Str) : Str :=
  if promptType = str "summary" then
    joinSep (str "\n\n--- SECTION BREAK ---\n\n") summaries
  else
    joinSep (str "\n\n") summaries

/-- The state invariant maintained by every scheduler step: no chunk is
running or done twice, running and done chunks are in range and disjoint,
`summaries` holds exactly the results of the done chunks in completion
order, and at most 2 calls are in flight. -/
def DInv (cfg : DispatchCfg) (s : DispatchState) : Prop :=
  s.running.Nodup ∧ s.done.Nodup ∧
  (∀ i ∈ s.running, i < cfg.n ∧ i ∉ s.done) ∧
  (∀ i ∈ s.done, i < cfg.n) ∧
  s.summaries = s.done.map (resultText cfg) ∧
  s.running.length ≤ 2

/-- Concrete 2-chunk scenario: both chat calls succeed, returning `"A"`
and `"B"`. -/
def cfgAB : DispatchCfg :=
  ⟨2, fun i => if i = 0 then .ok (str "A") else .ok (str "B")⟩

/-- Concrete 3-chunk scenario: the middle chat call raises `boom`, the
others succeed (the spec's scenario C). -/
def cfgErr : DispatchCfg :=
  ⟨3, fun i =>
    if i = 0 then .ok (str "A")
    else if i = 1 then .error (str "boom")
    else .ok (str "C")⟩

/-! ## Lemmas on splitting and stripping -/

theorem splitWs_ne_nil (s : Str) : splitWs s ≠ [] := by
  cases s with
  | nil => simp [splitWs]
  | cons c rest =>
    by_cases hc : isWs c
    · simp [splitWs, hc]
    · simp only [splitWs, hc]
      rcases h : splitWs rest with _ | ⟨h1, t⟩ <;> simp

theorem splitSpace_ne_nil (s : Str) : splitSpace s ≠ [] := by
  cases s with
  | nil => simp [splitSpace]
  | cons c rest =>
    by_cases hc : c = ' '
    · simp [splitSpace, hc]
    · simp only [splitSpace, hc, if_false]
      rcases h : splitSpace rest with _ | ⟨h1, t⟩ <;> simp

theorem splitWs_append_ws {c : Char} (hc : isWs c = true) :
    ∀ a b : Str, splitWs (a ++ c :: b) = splitWs a ++ splitWs b
  | [], b => by simp [splitWs, hc]
  | a :: as, b => by
    by_cases ha : isWs a
    · simp [splitWs, ha, splitWs_append_ws hc as b]
    · simp only [List.cons_append, splitWs, ha, if_false, List.append_eq]
      rw [splitWs_append_ws hc as b]
      rcases h : splitWs as with _ | ⟨h1, t⟩
      · exact absurd h (splitWs_ne_nil as)
      · simp

theorem wsTokens_nil : wsTokens [] = [] := rfl

theorem wsTokens_append_ws {c : Char} (hc : isWs c = true) (a b : Str) :
    wsTokens (a ++ c :: b) = wsTokens a ++ wsTokens b := by
  simp [wsTokens, splitWs_append_ws hc, List.filter_append]

theorem wsTokens_append_space (a : Str) :
    wsTokens (a ++ [' ']) = wsTokens a := by
  have := wsTokens_append_ws (c := ' ') rfl a []
  simpa [wsTokens, splitWs] using this

theorem wsTokens_wsTerm_append {cc : Str} (h : WsTerm cc) (x : Str) :
    wsTokens (cc ++ x) = wsTokens cc ++ wsTokens x := by
  rcases h with h | ⟨d, h⟩
  · subst h; simp [wsTokens_nil]
  · subst h
    have h1 : d ++ [' '] ++ x = d ++ ' ' :: x := by simp
    rw [h1, wsTokens_append_ws (by decide), wsTokens_append_space]

theorem wsTokens_cons_ws {c : Char} (hc : isWs c = true) (s : Str) :
    wsTokens (c :: s) = wsTokens s := by
  simp [wsTokens, splitWs, hc]

theorem wsTokens_lstrip (s : Str) : wsTokens (lstrip s) = wsTokens s := by
  induction s with
  | nil => rfl
  | cons c rest ih =>
    by_cases hc : isWs c
    · rw [lstrip, List.dropWhile_cons_of_pos hc, wsTokens_cons_ws hc]
      exact ih
    · rw [lstrip, List.dropWhile_cons_of_neg (by simpa using hc)]

theorem splitWs_rstrip (s : Str) :
    ∃ k, splitWs s = splitWs (rstrip s) ++ List.replicate k ([] : Str) := by
  induction s with
  | nil => exact ⟨0, rfl⟩
  | cons c rest ih =>
    obtain ⟨k, hk⟩ := ih
    by_cases hr : rstrip rest = [] ∧ isWs c = true
    · have hre : rstrip (c :: rest) = [] := by
        rw [rstrip]
        simp only [hr.1, hr.2, and_self, if_true]
      have h2 : splitWs rest = List.replicate (k + 1) ([] : Str) := by
        rw [hk, hr.1]
        simp [splitWs, List.replicate_succ]
      refine ⟨k + 1, ?_⟩
      rw [hre]
      simp only [splitWs, hr.2, if_true, h2]
      simp [List.replicate_succ]
    · have hre : rstrip (c :: rest) = c :: rstrip rest := by
        rw [rstrip]
        simp only [hr, if_false]
      rw [hre]
      by_cases hc : isWs c
      · refine ⟨k, ?_⟩
        simp only [splitWs, hc, if_true]
        rw [hk]
        simp
      · refine ⟨k, ?_⟩
        rcases h2 : splitWs (rstrip rest) with _ | ⟨h2h, h2t⟩
        · exact absurd h2 (splitWs_ne_nil (rstrip rest))
        · rw [h2] at hk
          simp only [splitWs, hc, if_false]
          rw [hk, h2]
          simp

theorem wsTokens_rstrip (s : Str) : wsTokens (rstrip s) = wsTokens s := by
  obtain ⟨k, hk⟩ := splitWs_rstrip s
  have hrep : List.filter (fun l => decide (l ≠ [])) (List.replicate k ([] : Str)) = [] := by
    induction k with
    | zero => rfl
    | succ k ih => simpa [List.replicate_succ] using ih
  simp [wsTokens, hk, List.filter_append, hrep]

theorem wsTokens_strip (s : Str) : wsTokens (strip s) = wsTokens s := by
  rw [strip, wsTokens_lstrip, wsTokens_rstrip]

theorem wsTokens_of_strip_nil {s : Str} (h : strip s = []) : wsTokens s = [] := by
  rw [← wsTokens_strip, h, wsTokens_nil]

theorem rstrip_append_ws {c : Char} (hc : isWs c = true) (s : Str) :
    rstrip (s ++ [c]) = rstrip s := by
  induction s with
  | nil => simp [rstrip, hc]
  | cons a as ih =>
    rw [List.cons_append, rstrip, rstrip, ih]

theorem strip_append_ws {c : Char} (hc : isWs c = true) (s : Str) :
    strip (s ++ [c]) = strip s := by
  rw [strip, strip, rstrip_append_ws hc]

theorem mem_rstrip {x : Char} {s : Str} (h : x ∈ rstrip s) : x ∈ s := by
  induction s with
  | nil => simpa [rstrip] using h
  | cons a as ih =>
    rw [rstrip] at h
    by_cases hcond : rstrip as = [] ∧ isWs a = true
    · simp [hcond.1, hcond.2] at h
    · simp only [hcond, if_false] at h
      rcases List.mem_cons.1 h with h | h
      · subst h
        exact List.mem_cons_self _ _
      · exact List.mem_cons_of_mem a (ih h)

theorem mem_strip {x : Char} {s : Str} (h : x ∈ strip s) : x ∈ s := by
  rw [strip, lstrip] at h
  exact mem_rstrip ((List.dropWhile_sublist _).subset h)

theorem length_rstrip_le (s : Str) : (rstrip s).length ≤ s.length := by
  induction s with
  | nil => simp [rstrip]
  | cons a as ih =>
    rw [rstrip]
    by_cases hcond : rstrip as = [] ∧ isWs a = true
    · simp [hcond.1, hcond.2]
    · simp only [hcond, if_false, List.length_cons]
      omega

theorem length_strip_le (s : Str) : (strip s).length ≤ s.length := by
  rw [strip, lstrip]
  exact le_trans (List.Sublist.length_le (List.dropWhile_sublist _)) (length_rstrip_le s)

theorem tokChunks_nil : tokChunks [] = [] := rfl

theorem tokChunks_append (a b : List Str) :
    tokChunks (a ++ b) = tokChunks a ++ tokChunks b := by
  simp [tokChunks]

theorem tokChunks_singleton (x : Str) : tokChunks [x] = wsTokens x := by
  simp [tokChunks]

theorem tokChunks_cons (x : Str) (l : List Str) :
    tokChunks (x :: l) = wsTokens x ++ tokChunks l := by
  simp [tokChunks]

theorem tokChunks_optStrip (cc : Str) : tokChunks (optStrip cc) = wsTokens cc := by
  rw [optStrip]
  by_cases h : strip cc = []
  · rw [if_pos h, tokChunks_nil, wsTokens_of_strip_nil h]
  · rw [if_neg h, tokChunks_singleton, wsTokens_strip]

theorem joinSpace_splitSpace (s : Str) : joinSpace (splitSpace s) = s := by
  induction s with
  | nil => rfl
  | cons c rest ih =>
    by_cases hc : c = ' '
    · subst hc
      rw [splitSpace, if_pos rfl]
      rcases h2 : splitSpace rest with _ | ⟨h1, t⟩
      · exact absurd h2 (splitSpace_ne_nil rest)
      · rw [h2] at ih
        rw [joinSpace]
        simp [ih]
    · rw [splitSpace, if_neg hc]
      rcases h2 : splitSpace rest with _ | ⟨h1, t⟩
      · exact absurd h2 (splitSpace_ne_nil rest)
      · rw [h2] at ih
        cases t with
        | nil => simpa [joinSpace] using ih
        | cons t1 t2 =>
          rw [joinSpace] at ih ⊢
          simp only [List.cons_append]
          rw [ih]

theorem wsTokens_joinSpace (xs : List Str) : wsTokens (joinSpace xs) = tokChunks xs := by
  induction xs with
  | nil => rfl
  | cons x t ih =>
    cases t with
    | nil => simp [joinSpace, tokChunks]
    | cons y tt =>
      rw [joinSpace, tokChunks_cons, ← ih]
      have h1 : x ++ ' ' :: joinSpace (y :: tt) = x ++ ' ' :: joinSpace (y :: tt) := rfl
      rw [wsTokens_append_ws (by decide)]

theorem tokChunks_splitSpace (s : Str) : tokChunks (splitSpace s) = wsTokens s := by
  rw [← wsTokens_joinSpace, joinSpace_splitSpace]

theorem splitSpace_no_space : ∀ (s : Str) (w : Str), w ∈ splitSpace s → ' ' ∉ w := by
  intro s
  induction s with
  | nil =>
    intro w h
    simp [splitSpace] at h
    simp [h]
  | cons c rest ih =>
    intro w h
    by_cases hc : c = ' '
    · rw [splitSpace, if_pos hc] at h
      rcases List.mem_cons.1 h with h | h
      · simp [h]
      · exact ih w h
    · rw [splitSpace, if_neg hc] at h
      cases h2 : splitSpace rest with
      | nil => exact absurd h2 (splitSpace_ne_nil rest)
      | cons h1 t =>
        rw [h2] at h
        rcases List.mem_cons.1 h with h | h
        · subst h
          intro hmem
          rcases List.mem_cons.1 hmem with h | h
          · exact hc h.symm
          · exact ih h1 (by rw [h2]; exact List.mem_cons_self h1 t) h
        · exact ih w (by rw [h2]; exact List.mem_cons_of_mem h1 h)

theorem optStrip_prop {cc c : Str} (h : c ∈ optStrip cc) : c = strip cc := by
  rw [optStrip] at h
  by_cases hs : strip cc = []
  · rw [if_pos hs] at h
    simp at h
  · rw [if_neg hs] at h
    simpa using h

/-! ## Dispatcher invariants -/

theorem dInv_init (cfg : DispatchCfg) : DInv cfg dInit :=
  ⟨List.nodup_nil, List.nodup_nil, by simp [dInit], by simp [dInit], rfl, by simp [dInit]⟩

theorem dInv_step {cfg : DispatchCfg} {s t : DispatchState}
    (h : DInv cfg s) (hst : DStep cfg s t) : DInv cfg t := by
  obtain ⟨hrn, hdn, hrd, hdb, hsum, hlen⟩ := h
  cases hst with
  | start i s hi hir hid hlt =>
    refine ⟨?_, hdn, ?_, hdb, hsum, ?_⟩
    · refine List.nodup_append.2 ⟨hrn, List.nodup_singleton i, ?_⟩
      intro a ha hai
      simp only [List.mem_singleton] at hai
      subst hai
      exact hir ha
    · intro j hj
      rcases List.mem_append.1 hj with hj | hj
      · exact hrd j hj
      · simp only [List.mem_singleton] at hj
        subst hj
        exact ⟨hi, hid⟩
    · simp only [List.length_append, List.length_singleton]
      omega
  | finish i s hir =>
    have hin : i < cfg.n := (hrd i hir).1
    have hid : i ∉ s.done := (hrd i hir).2
    refine ⟨List.Nodup.erase i hrn, ?_, ?_, ?_, ?_, ?_⟩
    · refine List.nodup_append.2 ⟨hdn, List.nodup_singleton i, ?_⟩
      intro a ha hai
      simp only [List.mem_singleton] at hai
      subst hai
      exact hid ha
    · intro j hj
      have hj' := (List.Nodup.mem_erase_iff hrn).1 hj
      refine ⟨(hrd j hj'.2).1, ?_⟩
      intro hmem
      rcases List.mem_append.1 hmem with h | h
      · exact (hrd j hj'.2).2 h
      · simp only [List.mem_singleton] at h
        exact hj'.1 h
    · intro j hj
      rcases List.mem_append.1 hj with h | h
      · exact hdb j h
      · simp only [List.mem_singleton] at h
        subst h
        exact hin
    · simp [hsum]
    · exact le_trans (List.Sublist.length_le (List.erase_sublist i s.running)) hlen

theorem dReach_inv {cfg : DispatchCfg} {s : DispatchState}
    (h : DReach cfg dInit s) : DInv cfg s := by
  induction h with
  | refl => exact dInv_init cfg
  | tail _ hstep ih => exact dInv_step ih hstep

theorem dComplete_perm {cfg : DispatchCfg} {s : DispatchState}
    (h : DReach cfg dInit s) (hc : DComplete cfg s) :
    s.done.Perm (List.range cfg.n) := by
  obtain ⟨-, hdn, -, hdb, -, -⟩ := dReach_inv h
  refine (List.subperm_of_subset hdn ?_).perm_of_length_le ?_
  · intro x hx
    exact List.mem_range.2 (hdb x hx)
  · simp [hc.2]

theorem joinSep_mem_infix (sep x : Str) :
    ∀ l : List Str, x ∈ l → ∃ p q, joinSep sep l = p ++ x ++ q
  | [], hx => absurd hx (List.not_mem_nil x)
  | [y], hx => by
    simp only [List.mem_singleton] at hx
    subst hx
    exact ⟨[], [], by simp [joinSep]⟩
  | y :: z :: t, hx => by
    rcases List.mem_cons.1 hx with h | h
    · subst h
      exact ⟨[], sep ++ joinSep sep (z :: t), by simp [joinSep]⟩
    · obtain ⟨p, q, hpq⟩ := joinSep_mem_infix sep x (z :: t) h
      exact ⟨y ++ sep ++ p, q, by simp [joinSep, hpq]⟩

theorem reachErrFinal :
    DReach cfgErr dInit
      ⟨[], [0, 1, 2],
       [str "A", str "[ERROR] Processing chunk 2: boom", str "C"], [33, 100]⟩ := by
  have h1 : DStep cfgErr dInit ⟨[0], [], [], []⟩ :=
    DStep.start 0 dInit (by decide) (by decide) (by decide) (by decide)
  have h2 : DStep cfgErr ⟨[0], [], [], []⟩ ⟨[0, 1], [], [], []⟩ :=
    DStep.start 1 _ (by decide) (by decide) (by decide) (by decide)
  have h3 : DStep cfgErr ⟨[0, 1], [], [], []⟩ ⟨[1], [0], [str "A"], [33]⟩ :=
    DStep.finish 0 _ (by decide)
  have h4 : DStep cfgErr ⟨[1], [0], [str "A"], [33]⟩ ⟨[1, 2], [0], [str "A"], [33]⟩ :=
    DStep.start 2 _ (by decide) (by decide) (by decide) (by decide)
  have h5 : DStep cfgErr ⟨[1, 2], [0], [str "A"], [33]⟩
      ⟨[2], [0, 1], [str "A", str "[ERROR] Processing chunk 2: boom"], [33]⟩ :=
    DStep.finish 1 _ (by decide)
  have h6 : DStep cfgErr ⟨[2], [0, 1], [str "A", str "[ERROR] Processing chunk 2: boom"], [33]⟩
      ⟨[], [0, 1, 2], [str "A", str "[ERROR] Processing chunk 2: boom", str "C"], [33, 100]⟩ :=
    DStep.finish 2 _ (by decide)
  exact .tail (.tail (.tail (.tail (.tail (.tail .refl h1) h2) h3) h4) h5) h6

/-! ## Segmenter loop invariants -/

theorem wordLoop_tokens (m : Nat) :
    ∀ (ws chunks : List Str) (cc : Str), WsTerm cc →
      tokChunks (wordLoop m ws chunks cc).1 ++ wsTokens (wordLoop m ws chunks cc).2 =
        tokChunks chunks ++ wsTokens cc ++ tokChunks ws ∧
      WsTerm (wordLoop m ws chunks cc).2
  | [], chunks, cc, hcc => by
    simp [wordLoop, tokChunks_nil, hcc]
  | w :: ws, chunks, cc, hcc => by
    rw [wordLoop]
    by_cases hg : cc.length + w.length + 1 ≤ m
    · rw [if_pos hg]
      have hterm : WsTerm (cc ++ w ++ [' ']) := Or.inr ⟨cc ++ w, by simp⟩
      obtain ⟨ih1, ih2⟩ := wordLoop_tokens m ws chunks (cc ++ w ++ [' ']) hterm
      refine ⟨?_, ih2⟩
      rw [ih1]
      have h1 : wsTokens (cc ++ w ++ [' ']) = wsTokens cc ++ wsTokens w := by
        rw [List.append_assoc, wsTokens_wsTerm_append hcc, wsTokens_append_space]
      rw [h1, tokChunks_cons]
      simp [List.append_assoc]
    · rw [if_neg hg]
      have hterm : WsTerm (w ++ [' ']) := Or.inr ⟨w, rfl⟩
      obtain ⟨ih1, ih2⟩ := wordLoop_tokens m ws (chunks ++ optStrip cc) (w ++ [' ']) hterm
      refine ⟨?_, ih2⟩
      rw [ih1, tokChunks_append, tokChunks_optStrip, wsTokens_append_space, tokChunks_cons]
      simp [List.append_assoc]

theorem sentLoop_tokens (m : Nat) :
    ∀ (ss chunks : List Str) (cc : Str), WsTerm cc →
      tokChunks (sentLoop m ss chunks cc).1 ++ wsTokens (sentLoop m ss chunks cc).2 =
        tokChunks chunks ++ wsTokens cc ++ tokChunks (ss.map (· ++ ['.']))
  | [], chunks, cc, hcc => by
    simp [sentLoop, tokChunks_nil]
  | s :: ss, chunks, cc, hcc => by
    rw [sentLoop]
    have hswp : wsTokens (s ++ ['.', ' ']) = wsTokens (s ++ ['.']) := by
      have h0 : s ++ ['.', ' '] = (s ++ ['.']) ++ [' '] := by simp
      rw [h0, wsTokens_append_space]
    by_cases hg1 : (cc ++ (s ++ ['.', ' '])).length ≤ m
    · rw [if_pos hg1]
      have hterm : WsTerm (cc ++ (s ++ ['.', ' '])) :=
        Or.inr ⟨cc ++ (s ++ ['.']), by simp⟩
      rw [sentLoop_tokens m ss chunks (cc ++ (s ++ ['.', ' '])) hterm]
      rw [wsTokens_wsTerm_append hcc, hswp, List.map_cons, tokChunks_cons]
      simp [List.append_assoc]
    · rw [if_neg hg1]
      by_cases hg2 : (s ++ ['.', ' ']).length ≤ m
      · rw [if_pos hg2]
        have hterm : WsTerm (s ++ ['.', ' ']) := Or.inr ⟨s ++ ['.'], by simp⟩
        rw [sentLoop_tokens m ss (chunks ++ optStrip cc) (s ++ ['.', ' ']) hterm]
        rw [tokChunks_append, tokChunks_optStrip, hswp, List.map_cons, tokChunks_cons]
        simp [List.append_assoc]
      · rw [if_neg hg2]
        obtain ⟨hw1, hw2⟩ := wordLoop_tokens m (splitSpace (s ++ ['.', ' ']))
          (chunks ++ optStrip cc) [] (Or.inl rfl)
        rw [sentLoop_tokens m ss _ [] (Or.inl rfl)]
        rw [tokChunks_append, tokChunks_optStrip]
        have hchunks2 :
            tokChunks (wordLoop m (splitSpace (s ++ ['.', ' '])) (chunks ++ optStrip cc) []).1 ++
              wsTokens (wordLoop m (splitSpace (s ++ ['.', ' '])) (chunks ++ optStrip cc) []).2 =
            tokChunks chunks ++ wsTokens cc ++ wsTokens (s ++ ['.']) := by
          rw [hw1, tokChunks_splitSpace, hswp, tokChunks_append, tokChunks_optStrip]
          simp [wsTokens_nil]
        rw [hchunks2, List.map_cons, tokChunks_cons]
        simp [wsTokens_nil, List.append_assoc]

theorem segment_tokens (text : Str) (m : Nat) :
    tokChunks (split_text_into_chunks text m) =
      tokChunks ((sentencesOf text).map (· ++ ['.'])) := by
  have h := sentLoop_tokens m (sentencesOf text) [] [] (Or.inl rfl)
  simp only [split_text_into_chunks]
  rw [tokChunks_append, tokChunks_optStrip]
  simpa [tokChunks_nil, wsTokens_nil] using h

theorem wordLoop_len (m : Nat) :
    ∀ (ws chunks : List Str) (cc : Str),
      (∀ c ∈ chunks, c.length ≤ m ∨ ' ' ∉ c) →
      (cc.length ≤ m ∨ ' ' ∉ strip cc) →
      (∀ w ∈ ws, ' ' ∉ w) →
      (∀ c ∈ (wordLoop m ws chunks cc).1, c.length ≤ m ∨ ' ' ∉ c) ∧
      ((wordLoop m ws chunks cc).2.length ≤ m ∨ ' ' ∉ strip (wordLoop m ws chunks cc).2)
  | [], chunks, cc, hck, hcc, _hws => by
    rw [wordLoop]
    exact ⟨hck, hcc⟩
  | w :: ws, chunks, cc, hck, hcc, hws => by
    rw [wordLoop]
    by_cases hg : cc.length + w.length + 1 ≤ m
    · rw [if_pos hg]
      refine wordLoop_len m ws chunks (cc ++ w ++ [' ']) hck (Or.inl ?_)
        (fun x hx => hws x (List.mem_cons_of_mem w hx))
      simp only [List.length_append, List.length_singleton]
      omega
    · rw [if_neg hg]
      refine wordLoop_len m ws (chunks ++ optStrip cc) (w ++ [' ']) ?_ (Or.inr ?_)
        (fun x hx => hws x (List.mem_cons_of_mem w hx))
      · intro c hc
        rcases List.mem_append.1 hc with h1 | h1
        · exact hck c h1
        · have hcs := optStrip_prop h1
          subst hcs
          rcases hcc with h2 | h2
          · exact Or.inl (le_trans (length_strip_le _) h2)
          · exact Or.inr h2
      · rw [strip_append_ws (by decide)]
        intro hsp
        exact hws w (List.mem_cons_self w ws) (mem_strip hsp)

theorem sentLoop_len (m : Nat) :
    ∀ (ss chunks : List Str) (cc : Str),
      (∀ c ∈ chunks, c.length ≤ m ∨ ' ' ∉ c) →
      cc.length ≤ m →
      (∀ c ∈ (sentLoop m ss chunks cc).1, c.length ≤ m ∨ ' ' ∉ c) ∧
      (sentLoop m ss chunks cc).2.length ≤ m
  | [], chunks, cc, hck, hcc => by
    rw [sentLoop]
    exact ⟨hck, hcc⟩
  | s :: ss, chunks, cc, hck, hcc => by
    rw [sentLoop]
    have hflush : ∀ c ∈ chunks ++ optStrip cc, c.length ≤ m ∨ ' ' ∉ c := by
      intro c hc
      rcases List.mem_append.1 hc with h1 | h1
      · exact hck c h1
      · have hcs := optStrip_prop h1
        subst hcs
        exact Or.inl (le_trans (length_strip_le _) hcc)
    by_cases hg1 : (cc ++ (s ++ ['.', ' '])).length ≤ m
    · rw [if_pos hg1]
      exact sentLoop_len m ss chunks (cc ++ (s ++ ['.', ' '])) hck hg1
    · rw [if_neg hg1]
      by_cases hg2 : (s ++ ['.', ' ']).length ≤ m
      · rw [if_pos hg2]
        exact sentLoop_len m ss (chunks ++ optStrip cc) (s ++ ['.', ' ']) hflush hg2
      · rw [if_neg hg2]
        obtain ⟨hw1, hw2⟩ := wordLoop_len m (splitSpace (s ++ ['.', ' ']))
          (chunks ++ optStrip cc) [] hflush (Or.inl (by simp))
          (splitSpace_no_space (s ++ ['.', ' ']))
        refine sentLoop_len m ss _ [] ?_ (by simp)
        intro c hc
        rcases List.mem_append.1 hc with h1 | h1
        · exact hw1 c h1
        · have hcs := optStrip_prop h1
          subst hcs
          rcases hw2 with h2 | h2
          · exact Or.inl (le_trans (length_strip_le _) h2)
          · exact Or.inr h2

/-! ## The claims -/

/-- Claim C1 (code bug): the final text is NOT invariant under completion
order. The code appends each result to the shared `summaries` list when its
chunk completes (line 132/137) and never re-sorts by index, so two runs of
the same twochunk request (chunk 0 returns `"A"`, chunk 1 returns `"B"`)
that differ only in completion order — `[0, 1]` versus `[1, 0]` — are both
reachable and yield different final texts. -/
theorem claim_C1_code_bug :
    DReach cfgAB dInit ⟨[], [0, 1], [str "A", str "B"], [50, 100]⟩ ∧
    DReach cfgAB dInit ⟨[], [1, 0], [str "B", str "A"], [100, 50]⟩ ∧
    DComplete cfgAB ⟨[], [0, 1], [str "A", str "B"], [50, 100]⟩ ∧
    DComplete cfgAB ⟨[], [1, 0], [str "B", str "A"], [100, 50]⟩ ∧
    finalResult (str "summary") [str "A", str "B"] ≠
      finalResult (str "summary") [str "B", str "A"] := by
  have h1 : DStep cfgAB dInit ⟨[0], [], [], []⟩ :=
    DStep.start 0 dInit (by decide) (by decide) (by decide) (by decide)
  have h2 : DStep cfgAB ⟨[0], [], [], []⟩ ⟨[0, 1], [], [], []⟩ :=
    DStep.start 1 _ (by decide) (by decide) (by decide) (by decide)
  have ho3 : DStep cfgAB ⟨[0, 1], [], [], []⟩ ⟨[1], [0], [str "A"], [50]⟩ :=
    DStep.finish 0 _ (by decide)
  have ho4 : DStep cfgAB ⟨[1], [0], [str "A"], [50]⟩
      ⟨[], [0, 1], [str "A", str "B"], [50, 100]⟩ :=
    DStep.finish 1 _ (by decide)
  have hr3 : DStep cfgAB ⟨[0, 1], [], [], []⟩ ⟨[0], [1], [str "B"], [100]⟩ :=
    DStep.finish 1 _ (by decide)
  have hr4 : DStep cfgAB ⟨[0], [1], [str "B"], [100]⟩
      ⟨[], [1, 0], [str "B", str "A"], [100, 50]⟩ :=
    DStep.finish 0 _ (by decide)
  refine ⟨?_, ?_, ⟨rfl, rfl⟩, ⟨rfl, rfl⟩, by decide⟩
  · exact .tail (.tail (.tail (.tail .refl h1) h2) ho3) ho4
  · exact .tail (.tail (.tail (.tail .refl h1) h2) hr3) hr4

/-- Claim C2: every chunk produced by `split_text_into_chunks` has length
at most `max_chunk_size`, except a chunk that contains no space (a single
word, which only arises when the word itself is over-long). -/
theorem claim_C2 (text : Str) (m : Nat) (c : Str) (_hm : 0 < m)
    (hc : c ∈ split_text_into_chunks text m) :
    c.length ≤ m ∨ ' ' ∉ c := by
  have h := sentLoop_len m (sentencesOf text) [] [] (by simp) (by simp)
  simp only [split_text_into_chunks] at hc
  rcases List.mem_append.1 hc with h1 | h1
  · exact h.1 c h1
  · have hcs := optStrip_prop h1
    subst hcs
    exact Or.inl (le_trans (length_strip_le _) h.2)

/-- Witness for C2 at `text = "ab cd. "`, `max_chunk_size = 3`: the chunk
`"ab"` is produced and satisfies the bound. -/
theorem claim_C2_witness :
    0 < 3 ∧ str "ab" ∈ split_text_into_chunks (str "ab cd. ") 3 ∧
      ((str "ab").length ≤ 3 ∨ ' ' ∉ str "ab") :=
  ⟨by decide, by decide, claim_C2 (str "ab cd. ") 3 (str "ab") (by decide) (by decide)⟩

/-- Claim C3 (counterexample): the round trip is NOT lossless up to
whitespace. On input `"Hi"` the segmenter returns the single chunk
`"Hi."` — it appends the `". "` delimiter to the final sentence even when
the input did not end with one — so the normalized concatenation differs
from the normalized input. -/
theorem claim_C3_counterexample :
    split_text_into_chunks (str "Hi") 10 = [str "Hi."] ∧
    normalizeWs (joinSpace (split_text_into_chunks (str "Hi") 10)) ≠
      normalizeWs (str "Hi") := by
  decide

/-- Claim C3 as amended: for every input and every size bound, the chunk
texts joined by single spaces and whitespace-normalized equal the
whitespace-normalized sequence of the input's nonempty trimmed `". "`
separated sentence pieces, each terminated with a period. The round trip
is lossless only up to whitespace normalization, the insertion of a
terminating period on every sentence (including the last), and the
dropping of empty sentence pieces. -/
theorem claim_C3_amended (text : Str) (m : Nat) :
    normalizeWs (joinSpace (split_text_into_chunks text m)) =
      normalizeWs (joinSpace ((sentencesOf text).map (· ++ ['.']))) := by
  rw [normalizeWs, normalizeWs, wsTokens_joinSpace, wsTokens_joinSpace, segment_tokens]

/-- Claim C4: in a completed multi-chunk run where chunk `j` raised and the
rest succeeded, the run terminates with a full result list: the failing
chunk contributes a string prefixed `[ERROR]`, every successful chunk's
text appears verbatim inside the final text, and no result is dropped. -/
theorem claim_C4 (cfg : DispatchCfg) (pt : Str) (j : Nat) (e : Str) (s : DispatchState)
    (_hn : 2 ≤ cfg.n) (hj : j < cfg.n) (hfail : cfg.outcome j = .error e)
    (_hok : ∀ i, i < cfg.n → i ≠ j → ∃ t, cfg.outcome i = .ok t)
    (hr : DReach cfg dInit s) (hc : DComplete cfg s) :
    (∃ r, resultText cfg j = str "[ERROR]" ++ r) ∧
    resultText cfg j ∈ s.summaries ∧
    (∀ i t, i < cfg.n → cfg.outcome i = .ok t →
        ∃ p q, finalResult pt s.summaries = p ++ t ++ q) ∧
    s.summaries.length = cfg.n := by
  have hperm := dComplete_perm hr hc
  have hsum : s.summaries = s.done.map (resultText cfg) := (dReach_inv hr).2.2.2.2.1
  refine ⟨?_, ?_, ?_, ?_⟩
  · refine ⟨str " Processing chunk " ++ natStr (j + 1) ++ str ": " ++ e, ?_⟩
    have hsplit : str "[ERROR] Processing chunk " =
        str "[ERROR]" ++ str " Processing chunk " := by decide
    simp only [resultText, hfail, hsplit]
    simp [List.append_assoc]
  · have hjd : j ∈ s.done := hperm.mem_iff.2 (List.mem_range.2 hj)
    rw [hsum]
    exact List.mem_map_of_mem _ hjd
  · intro i t hi hokt
    have hti : resultText cfg i = t := by simp [resultText, hokt]
    have hid : i ∈ s.done := hperm.mem_iff.2 (List.mem_range.2 hi)
    have htm : t ∈ s.summaries := by
      rw [hsum]
      exact hti ▸ List.mem_map_of_mem _ hid
    by_cases hpt : pt = str "summary"
    · simp only [finalResult]
      rw [if_pos hpt]
      exact joinSep_mem_infix _ _ _ htm
    · simp only [finalResult]
      rw [if_neg hpt]
      exact joinSep_mem_infix _ _ _ htm
  · rw [hsum, List.length_map]
    exact hperm.length_eq.trans (List.length_range _)

/-- Witness for C4: the concrete 3-chunk run `cfgErr` in which chunk 1
raises `boom`, executed to completion by `reachErrFinal`. -/
theorem claim_C4_witness :
    (∃ r, resultText cfgErr 1 = str "[ERROR]" ++ r) ∧
    resultText cfgErr 1 ∈
      [str "A", str "[ERROR] Processing chunk 2: boom", str "C"] ∧
    (∃ p q, finalResult (str "brief")
        [str "A", str "[ERROR] Processing chunk 2: boom", str "C"] = p ++ str "A" ++ q) ∧
    ([str "A", str "[ERROR] Processing chunk 2: boom", str "C"] : List Str).length =
      cfgErr.n := by
  have h := claim_C4 cfgErr (str "brief") 1 (str "boom") _
    (by decide) (by decide) rfl
    (by
      intro i hi hne
      have hi3 : i < 3 := hi
      interval_cases i
      · exact ⟨str "A", rfl⟩
      · exact absurd rfl hne
      · exact ⟨str "C", rfl⟩)
    reachErrFinal ⟨rfl, rfl⟩
  exact ⟨h.1, h.2.1, h.2.2.1 0 (str "A") (by decide) rfl, h.2.2.2⟩

/-- Claim C5: the admission semaphore is `asyncio.Semaphore(2)`; in every
state reachable by the dispatch scheduler, at most 2 chat calls are in
flight (a slot is acquired by `start` and released by `finish`, whether
the call succeeds or fails). -/
theorem claim_C5 (cfg : DispatchCfg) (s : DispatchState)
    (h : DReach cfg dInit s) : s.running.length ≤ 2 :=
  (dReach_inv h).2.2.2.2.2

/-- Witness for C5: the state of `cfgErr` with chunks 0 and 1 both in
flight is reachable, and it satisfies the bound. -/
theorem claim_C5_witness :
    DReach cfgErr dInit ⟨[0, 1], [], [], []⟩ ∧
    (DispatchState.mk [0, 1] [] [] []).running.length ≤ 2 := by
  have h : DReach cfgErr dInit ⟨[0, 1], [], [], []⟩ :=
    .tail (.tail .refl (DStep.start 0 dInit (by decide) (by decide) (by decide) (by decide)))
      (DStep.start 1 ⟨[0], [], [], []⟩ (by decide) (by decide) (by decide) (by decide))
  exact ⟨h, claim_C5 cfgErr _ h⟩

/-- Claim C6 (code bug): progress is emitted as
`int((index + 1) / len(chunks) * 100)` — the INDEX of the completing chunk,
not the number of completed chunks — and only on success. When chunk 1 of
the 2-chunk run `cfgAB` completes first, the code emits 100 with only one
chunk done, and the full emitted sequence `[100, 50]` is decreasing. -/
theorem claim_C6_code_bug :
    DReach cfgAB dInit ⟨[0], [1], [str "B"], [100]⟩ ∧
    DReach cfgAB dInit ⟨[], [1, 0], [str "B", str "A"], [100, 50]⟩ ∧
    ¬ ([100, 50] : List Nat).Sorted (· ≤ ·) ∧
    progressEmit cfgAB 1 = [100] ∧ 1 * 100 / cfgAB.n = 50 := by
  have h1 : DStep cfgAB dInit ⟨[0], [], [], []⟩ :=
    DStep.start 0 dInit (by decide) (by decide) (by decide) (by decide)
  have h2 : DStep cfgAB ⟨[0], [], [], []⟩ ⟨[0, 1], [], [], []⟩ :=
    DStep.start 1 _ (by decide) (by decide) (by decide) (by decide)
  have h3 : DStep cfgAB ⟨[0, 1], [], [], []⟩ ⟨[0], [1], [str "B"], [100]⟩ :=
    DStep.finish 1 _ (by decide)
  have h4 : DStep cfgAB ⟨[0], [1], [str "B"], [100]⟩
      ⟨[], [1, 0], [str "B", str "A"], [100, 50]⟩ :=
    DStep.finish 0 _ (by decide)
  exact ⟨.tail (.tail (.tail .refl h1) h2) h3,
         .tail (.tail (.tail (.tail .refl h1) h2) h3) h4,
         by decide, by decide, by decide⟩

/-- Claim C7: a non-empty `custom_prompt` fully replaces the professor base
instruction; a non-empty `answer_length` in professor mode prepends the
`"Answer length: ... "` clause; every other content type uses its fixed
base instruction and ignores both `custom_prompt` and `answer_length`. -/
theorem claim_C7 (cp al : Str) :
    (cp ≠ [] → promptsLookup (str "professor") cp = cp) ∧
    (al ≠ [] → buildPrompt (str "professor") cp al =
        str "Answer length: " ++ al ++ str ". " ++ promptsLookup (str "professor") cp) ∧
    (∀ pt, pt ≠ str "professor" → buildPrompt pt cp al = promptsLookup pt []) ∧
    buildPrompt (str "summary") cp al = summaryPrompt ∧
    buildPrompt (str "brief") cp al = briefPrompt ∧
    buildPrompt (str "qna") cp al = qnaPrompt ∧
    buildPrompt (str "questions") cp al = questionsPrompt := by
  refine ⟨?_, ?_, ?_, ?_, ?_, ?_, ?_⟩
  · intro hcp
    simp only [promptsLookup]
    rw [if_neg (by decide), if_neg (by decide), if_neg (by decide), if_neg (by decide),
        if_pos (by decide), if_pos hcp]
  · intro hal
    simp only [buildPrompt]
    rw [if_pos ⟨hal, by decide⟩]
  · intro pt hpt
    simp only [buildPrompt, promptsLookup]
    rw [if_neg (fun h => hpt h.2)]
    by_cases h1 : pt = str "summary"
    · rw [if_pos h1, if_pos h1]
    rw [if_neg h1, if_neg h1]
    by_cases h2 : pt = str "brief"
    · rw [if_pos h2, if_pos h2]
    rw [if_neg h2, if_neg h2]
    by_cases h3 : pt = str "qna"
    · rw [if_pos h3, if_pos h3]
    rw [if_neg h3, if_neg h3]
    by_cases h4 : pt = str "questions"
    · rw [if_pos h4, if_pos h4]
    rw [if_neg h4, if_neg h4, if_neg hpt, if_neg hpt]
  · simp +decide [buildPrompt, promptsLookup]
  · simp +decide [buildPrompt, promptsLookup]
  · simp +decide [buildPrompt, promptsLookup]
  · simp +decide [buildPrompt, promptsLookup]

/-- Witness for C7 at a concrete non-empty custom prompt and length hint. -/
theorem claim_C7_witness :
    promptsLookup (str "professor") (str "Explain the main theorem") =
      str "Explain the main theorem" ∧
    buildPrompt (str "professor") (str "Explain the main theorem") (str "short") =
      str "Answer length: " ++ str "short" ++ str ". " ++
        promptsLookup (str "professor") (str "Explain the main theorem") ∧
    buildPrompt (str "qna") (str "Explain the main theorem") (str "short") =
      promptsLookup (str "qna") [] :=
  ⟨(claim_C7 (str "Explain the main theorem") (str "short")).1 (by decide),
   (claim_C7 (str "Explain the main theorem") (str "short")).2.1 (by decide),
   (claim_C7 (str "Explain the main theorem") (str "short")).2.2.1 _ (by decide)⟩

/-- Claim C8: the chat temperature is 0.4 for `summary` and `brief`, and
0.7 for `qna`, `questions`, and `professor`. -/
theorem claim_C8 :
    temperature (str "summary") = 0.4 ∧ temperature (str "brief") = 0.4 ∧
    temperature (str "qna") = 0.7 ∧ temperature (str "questions") = 0.7 ∧
    temperature (str "professor") = 0.7 := by
  refine ⟨?_, ?_, ?_, ?_, ?_⟩ <;> simp +decide [temperature]

/-- Claim C9: in every completed run, every chunk contributes exactly one
entry to `summaries` (its result, appended on completion; nothing is
dropped), and the final text joins the entries with the section-break
marker for `summary` and with a blank line for every other content type. -/
theorem claim_C9 (cfg : DispatchCfg) (s : DispatchState) (_hn : 2 ≤ cfg.n)
    (hr : DReach cfg dInit s) (hc : DComplete cfg s) :
    s.summaries = s.done.map (resultText cfg) ∧
    s.done.Perm (List.range cfg.n) ∧
    s.summaries.length = cfg.n ∧
    finalResult (str "summary") s.summaries =
      joinSep (str "\n\n--- SECTION BREAK ---\n\n") s.summaries ∧
    ∀ pt, pt ≠ str "summary" →
      finalResult pt s.summaries = joinSep (str "\n\n") s.summaries := by
  have hperm := dComplete_perm hr hc
  have hsum : s.summaries = s.done.map (resultText cfg) := (dReach_inv hr).2.2.2.2.1
  refine ⟨hsum, hperm, ?_, ?_, ?_⟩
  · rw [hsum, List.length_map]
    exact hperm.length_eq.trans (List.length_range _)
  · simp [finalResult]
  · intro pt hpt
    simp [finalResult, hpt]

/-- Witness for C9: the completed concrete run `reachErrFinal`. -/
theorem claim_C9_witness :
    ([str "A", str "[ERROR] Processing chunk 2: boom", str "C"] : List Str) =
      [0, 1, 2].map (resultText cfgErr) ∧
    ([0, 1, 2] : List Nat).Perm (List.range 3) ∧
    finalResult (str "brief") [str "A", str "[ERROR] Processing chunk 2: boom", str "C"] =
      joinSep (str "\n\n") [str "A", str "[ERROR] Processing chunk 2: boom", str "C"] := by
  have h := claim_C9 cfgErr _ (by decide) reachErrFinal ⟨rfl, rfl⟩
  exact ⟨h.1, h.2.1, h.2.2.2.2 (str "brief") (by decide)⟩

/-- Claim C10: an unknown content type does not make the pipeline fail:
the prompt lookup falls back to the summary base instruction while the
temperature test (membership in `["summary", "brief"]`) selects 0.7. -/
theorem claim_C10 (pt cp al : Str)
    (h : pt ∉ [str "summary", str "brief", str "qna", str "questions", str "professor"]) :
    buildPrompt pt cp al = summaryPrompt ∧ temperature pt = 0.7 := by
  simp only [List.mem_cons, not_or] at h
  obtain ⟨h1, h2, h3, h4, h5, -⟩ := h
  constructor
  · simp only [buildPrompt, promptsLookup]
    rw [if_neg (fun hh => h5 hh.2), if_neg h1, if_neg h2, if_neg h3, if_neg h4, if_neg h5]
  · simp only [temperature]
    rw [if_neg (by simp [h1, h2])]

/-- Witness for C10 at the unknown content type `"essay"`. -/
theorem claim_C10_witness :
    str "essay" ∉ [str "summary", str "brief", str "qna", str "questions", str "professor"] ∧
    (buildPrompt (str "essay") (str "X") (str "short") = summaryPrompt ∧
     temperature (str "essay") = 0.7) :=
  ⟨by decide, claim_C10 _ _ _ (by decide)⟩

end Kiri
